import Mathlib

set_option maxRecDepth 4000

/- Shallow embedding of rsa_padding.c, the RSA padding codecs of the library.

   Bytes are modelled as Nat values and byte buffers as List Nat. Buffer
   lengths (SIZE_T in the source) are Nat; an explicit wrap modulo 2^64 is
   applied at the one subtraction where the source can underflow. The hash
   adapter (PCSYMCRYPT_HASH plus SymCryptHashResultSize, SymCryptHash and the
   streaming interface) is modelled as a record carrying the digest length and
   a total hash function on byte lists. SymCryptEqual over n bytes of two
   buffers of size n is list equality, and SymCryptCallbackRandom is modelled
   by passing the bytes a run of the random source produces as an argument. -/

inductive SYMCRYPT_ERROR where
  | NoError
  | InvalidArgument
  | BufferTooSmall
  | SignatureVerificationFailure
deriving DecidableEq

/-- Result of a remove path: the returned error, the value stored through
pcbPlaintext (none when the source never writes it), and the bytes copied into
the caller buffer (none when no copy happens). -/
structure RemoveResult where
  scError : SYMCRYPT_ERROR
  pcbPlaintext : Option Nat
  plaintext : Option (List Nat)
deriving DecidableEq

/-- Hash adapter: digest length and a total hash function whose output always
has that length, as the PCSYMCRYPT_HASH interface guarantees. -/
structure HashAlg where
  hLen : Nat
  hash : List Nat → List Nat
  hLen_pos : 0 < hLen
  hash_length : ∀ msg, (hash msg).length = hLen

/-- Subtraction of SIZE_T values with the wraparound of the 64 bit machine
integer, used at the one place where the source can underflow. -/
def sizeSub (a b : Nat) : Nat := (2 ^ 64 + a - b) % 2 ^ 64

/-- Counter bytes hashed by SymCryptRsaPaddingMaskGeneration at iteration i:
either only the low byte of the UINT32 counter written into position 3 of an
otherwise zero four byte buffer (taken when fewer than 256 iterations are
needed), or the full reversal of the little endian in memory representation
of the counter. -/
def mgfCountBytes (fAvoidDWORDReverse : Bool) (i : Nat) : List Nat :=
  if fAvoidDWORDReverse then [0, 0, 0, i % 256]
  else [(i >>> 24) % 256, (i >>> 16) % 256, (i >>> 8) % 256, i % 256]

/-- Loop of SymCryptRsaPaddingMaskGeneration: at each of the remaining
iterations, hash the seed followed by the counter bytes; copy the whole digest
while at least hLen output bytes remain, otherwise copy the leading remaining
bytes of the digest and stop. -/
def maskGenLoop (H : HashAlg) (seed : List Nat) (fA : Bool) : Nat → Nat → Nat → List Nat
  | _, 0, _ => []
  | i, n + 1, remaining =>
      let h := H.hash (seed ++ mgfCountBytes fA i)
      if H.hLen ≤ remaining then h ++ maskGenLoop H seed fA (i + 1) n (remaining - H.hLen)
      else h.take remaining

/-- SymCryptRsaPaddingMaskGeneration, lines 52 to 118 of rsa_padding.c. -/
def SymCryptRsaPaddingMaskGeneration (H : HashAlg) (seed : List Nat) (cbDst : Nat) : List Nat :=
  let cIterations := (cbDst + (H.hLen - 1)) / H.hLen
  maskGenLoop H seed (decide (cIterations < 256)) 0 cIterations cbDst

/-- I2OSP of a counter into four bytes, most significant byte first, written
from the words of the spec. -/
def I2OSP4 (i : Nat) : List Nat :=
  [i / 2 ^ 24 % 256, i / 2 ^ 16 % 256, i / 2 ^ 8 % 256, i % 256]

/-- MGF1 as the spec defines it: for each counter i up to the iteration count,
hash the seed followed by I2OSP(i, 4), concatenate, and truncate the final
block so that exactly maskLen bytes result. -/
def MGF1 (H : HashAlg) (seed : List Nat) (maskLen : Nat) : List Nat :=
  (((List.range ((maskLen + H.hLen - 1) / H.hLen)).map
      (fun i => H.hash (seed ++ I2OSP4 i))).flatten).take maskLen

theorem le_ceil_mul (a b : Nat) (hb : 0 < b) : a ≤ ((a + (b - 1)) / b) * b := by
  rcases Nat.eq_zero_or_pos a with rfl | ha
  · simp
  · have e : a + (b - 1) = (a - 1) + b := by omega
    rw [e, Nat.add_div_right _ hb, Nat.add_mul, Nat.one_mul]
    have hdm := Nat.div_add_mod (a - 1) b
    have hml : (a - 1) % b < b := Nat.mod_lt _ hb
    have hc : (a - 1) / b * b = b * ((a - 1) / b) := Nat.mul_comm _ _
    rw [hc]
    generalize hX : b * ((a - 1) / b) = X at *
    generalize hY : (a - 1) % b = Y at *
    omega

theorem maskGenLoop_eq (H : HashAlg) (seed : List Nat) (fA : Bool) :
    ∀ (n i remaining : Nat), remaining ≤ n * H.hLen →
      maskGenLoop H seed fA i n remaining =
        (((List.range' i n).map
          (fun j => H.hash (seed ++ mgfCountBytes fA j))).flatten).take remaining := by
  intro n
  induction n with
  | zero =>
      intro i remaining h
      simp only [Nat.zero_mul, Nat.le_zero] at h
      simp [maskGenLoop, h]
  | succ n ih =>
      intro i remaining h
      simp only [List.range'_succ, List.map_cons, List.flatten_cons,
        List.take_append_eq_append_take, H.hash_length]
      by_cases hr : H.hLen ≤ remaining
      · have h1 : remaining - H.hLen ≤ n * H.hLen := by
          have hs : (n + 1) * H.hLen = n * H.hLen + H.hLen := Nat.succ_mul n H.hLen
          rw [hs] at h
          omega
        have htk : (H.hash (seed ++ mgfCountBytes fA i)).take remaining
            = H.hash (seed ++ mgfCountBytes fA i) :=
          List.take_of_length_le (by rw [H.hash_length]; exact hr)
        rw [htk, ← ih (i + 1) (remaining - H.hLen) h1]
        simp only [maskGenLoop, hr, if_true]
      · have h0 : remaining - H.hLen = 0 := by omega
        rw [h0, List.take_zero, List.append_nil]
        simp only [maskGenLoop, hr, if_false]

theorem maskGenLoop_length (H : HashAlg) (seed : List Nat) (fA : Bool) :
    ∀ (n i remaining : Nat), remaining ≤ n * H.hLen →
      (maskGenLoop H seed fA i n remaining).length = remaining := by
  intro n
  induction n with
  | zero =>
      intro i remaining h
      simp only [Nat.zero_mul, Nat.le_zero] at h
      simp [maskGenLoop, h]
  | succ n ih =>
      intro i remaining h
      rw [maskGenLoop]
      by_cases hr : H.hLen ≤ remaining
      · have h1 : remaining - H.hLen ≤ n * H.hLen := by
          have hs : (n + 1) * H.hLen = n * H.hLen + H.hLen := Nat.succ_mul n H.hLen
          rw [hs] at h
          omega
        simp only [hr, if_true, List.length_append, H.hash_length, ih (i + 1) _ h1]
        omega
      · simp only [hr, if_false, List.length_take, H.hash_length]
        omega

theorem maskGen_length (H : HashAlg) (seed : List Nat) (n : Nat) :
    (SymCryptRsaPaddingMaskGeneration H seed n).length = n := by
  unfold SymCryptRsaPaddingMaskGeneration
  exact maskGenLoop_length H seed _ _ 0 n (le_ceil_mul n H.hLen H.hLen_pos)

/-- C7. The mask generation routine of the source, including the low byte
counter optimization taken when fewer than 256 iterations are needed, produces
output byte identical to the canonical MGF1 definition with a big endian four
byte counter. The hypothesis keeps the iteration count inside the range the
UINT32 loop counter of the source can traverse. -/
theorem maskGeneration_eq_MGF1 (H : HashAlg) (seed : List Nat) (maskLen : Nat)
    (hIter : (maskLen + (H.hLen - 1)) / H.hLen ≤ 2 ^ 32) :
    SymCryptRsaPaddingMaskGeneration H seed maskLen = MGF1 H seed maskLen := by
  have hb := H.hLen_pos
  unfold SymCryptRsaPaddingMaskGeneration MGF1
  rw [maskGenLoop_eq H seed _ _ 0 maskLen (le_ceil_mul maskLen H.hLen hb)]
  have hceq : maskLen + (H.hLen - 1) = maskLen + H.hLen - 1 := by omega
  rw [hceq, List.range_eq_range']
  congr 1
  apply congrArg
  apply List.map_congr_left
  intro j hj
  have hjlt : j < (maskLen + H.hLen - 1) / H.hLen := by
    have := List.mem_range'_1.mp hj
    omega
  apply congrArg
  apply congrArg
  by_cases hsmall : (maskLen + H.hLen - 1) / H.hLen < 256
  · have hj256 : j < 256 := Nat.lt_trans hjlt hsmall
    simp only [mgfCountBytes, I2OSP4]
    rw [if_pos (by simp [hsmall])]
    rw [Nat.div_eq_of_lt (by omega), Nat.div_eq_of_lt (by omega),
      Nat.div_eq_of_lt (by omega), Nat.mod_eq_of_lt hj256]
  · simp only [mgfCountBytes, I2OSP4]
    rw [if_neg (by simp [hsmall])]
    simp only [Nat.shiftRight_eq_div_pow]

/-- Toy hash of digest length one used to instantiate witnesses: the sum of
the input bytes reduced modulo 256. -/
def hashSum : HashAlg where
  hLen := 1
  hash := fun l => [(l.foldl (fun a b => a + b) 0) % 256]
  hLen_pos := by decide
  hash_length := fun msg => rfl

/-- Toy hash of digest length one with constant output, used to instantiate
counterexamples and witnesses. -/
def hashZ : HashAlg where
  hLen := 1
  hash := fun _ => [0]
  hLen_pos := by decide
  hash_length := fun msg => rfl

/-- Witness for C7 at a concrete hash, seed and mask length. -/
theorem maskGeneration_eq_MGF1_witness :
    SymCryptRsaPaddingMaskGeneration hashSum [5] 3 = MGF1 hashSum [5] 3 :=
  maskGeneration_eq_MGF1 hashSum [5] 3 (by decide)

theorem zipWith_xor_cancel (a : List Nat) : ∀ (b : List Nat), a.length = b.length →
    List.zipWith (fun x y => x ^^^ y) (List.zipWith (fun x y => x ^^^ y) a b) b = a := by
  induction a with
  | nil => intro b h; cases b <;> simp
  | cons x xs ih =>
      intro b h
      cases b with
      | nil => simp at h
      | cons y ys =>
          simp only [List.zipWith_cons_cons]
          rw [Nat.xor_cancel_right, ih ys (by simpa using h)]

/-- Byte wise xor of two buffers, the xor loops of the source. -/
def xorBytes (a b : List Nat) : List Nat := List.zipWith (fun x y => x ^^^ y) a b

theorem xorBytes_length (a b : List Nat) : (xorBytes a b).length = min a.length b.length := by
  unfold xorBytes
  exact List.length_zipWith _ _ _

theorem xorBytes_cancel (a b : List Nat) (h : a.length = b.length) :
    xorBytes (xorBytes a b) b = a := zipWith_xor_cancel a b h

theorem getD_append_l (l1 l2 : List Nat) (n : Nat) (h : n < l1.length) :
    (l1 ++ l2).getD n 0 = l1.getD n 0 := by
  induction l1 generalizing n with
  | nil => simp at h
  | cons a t ih =>
      cases n with
      | zero => rfl
      | succ m =>
          simp only [List.cons_append, List.getD_cons_succ]
          exact ih m (by simpa using h)

theorem getD_append_r (l1 l2 : List Nat) (n : Nat) (h : l1.length ≤ n) :
    (l1 ++ l2).getD n 0 = l2.getD (n - l1.length) 0 := by
  induction l1 generalizing n with
  | nil => simp
  | cons a t ih =>
      cases n with
      | zero => simp at h
      | succ m =>
          simp only [List.cons_append, List.getD_cons_succ, List.length_cons]
          rw [ih m (by simpa using h)]
          congr 1
          omega

/-- Scan loop of SymCryptRsaPkcs1RemoveEncryptionPadding: index of the first
zero byte, or the length of the list when no byte is zero. -/
def pkcs1ScanZero : List Nat → Nat
  | [] => 0
  | b :: rest => if b = 0 then 0 else pkcs1ScanZero rest + 1

theorem pkcs1ScanZero_append (ps M : List Nat) (h : ∀ b ∈ ps, b ≠ 0) :
    pkcs1ScanZero (ps ++ 0 :: M) = ps.length := by
  induction ps with
  | nil => simp [pkcs1ScanZero]
  | cons b t ih =>
      have hb : b ≠ 0 := h b (by simp)
      have ht : ∀ x ∈ t, x ≠ 0 := fun x hx => h x (by simp [hx])
      simp [pkcs1ScanZero, hb, ih ht]

/-- SymCryptRsaPkcs1ApplyEncryptionPadding, lines 128 to 184 of rsa_padding.c.
The argument ps stands for the padding string delivered by the random callback
after the redraw loop which replaces zero bytes; on a run where every draw
succeeds it holds cbPKCS1Format - cbPlaintext - 3 bytes, none of them zero,
which the round trip theorem assumes as hypotheses. -/
def SymCryptRsaPkcs1ApplyEncryptionPadding (pbPlaintext : List Nat) (flags : Nat)
    (cbPKCS1Format : Nat) (ps : List Nat) : Except SYMCRYPT_ERROR (List Nat) :=
  if flags ≠ 0 ∨ cbPKCS1Format < pbPlaintext.length + 11 then .error .InvalidArgument
  else .ok ([0x00, 0x02] ++ ps ++ [0x00] ++ pbPlaintext)

/-- SymCryptRsaPkcs1RemoveEncryptionPadding, lines 189 to 254 of rsa_padding.c.
The cbPlaintext argument is none when the caller passes a null output buffer
and carries the buffer size otherwise. The subtraction forming the reported
length cannot underflow because the validity bit requires the scan index to
stay below the block length. -/
def SymCryptRsaPkcs1RemoveEncryptionPadding (pbPKCS1Format : List Nat) (flags : Nat)
    (cbPlaintext : Option Nat) : RemoveResult :=
  if flags ≠ 0 ∨ pbPKCS1Format.length < 2 then ⟨.InvalidArgument, none, none⟩
  else
    let i := 2 + pkcs1ScanZero (pbPKCS1Format.drop 2)
    if pbPKCS1Format.getD 0 0 = 0x00 ∧ pbPKCS1Format.getD 1 0 = 0x02 ∧ i < pbPKCS1Format.length
    then
      let len := pbPKCS1Format.length - (i + 1)
      match cbPlaintext with
      | none => ⟨.NoError, some len, none⟩
      | some cb =>
          if cb < len then ⟨.BufferTooSmall, some len, none⟩
          else ⟨.NoError, some len, some ((pbPKCS1Format.drop (i + 1)).take len)⟩
    else ⟨.InvalidArgument, none, none⟩

theorem pkcs1_remove_wellformed (ps M : List Nat) (hnz : ∀ b ∈ ps, b ≠ 0) :
    SymCryptRsaPkcs1RemoveEncryptionPadding (0x00 :: 0x02 :: (ps ++ 0x00 :: M)) 0 (some M.length)
    = ⟨.NoError, some M.length, some M⟩ := by
  have f2 : pkcs1ScanZero ((0x00 :: 0x02 :: (ps ++ 0x00 :: M)).drop 2) = ps.length :=
    pkcs1ScanZero_append ps M hnz
  have hB : (0x00 :: 0x02 :: (ps ++ 0x00 :: M)) = (0x00 :: 0x02 :: (ps ++ [0x00])) ++ M := by
    simp
  have hlen3 : (0x00 :: 0x02 :: (ps ++ [0x00])).length = 2 + ps.length + 1 := by
    simp only [List.length_cons, List.length_append, List.length_singleton, List.length_nil]
    omega
  have f4 : (0x00 :: 0x02 :: (ps ++ 0x00 :: M)).drop (2 + ps.length + 1) = M := by
    rw [hB, List.drop_left' hlen3]
  have f3 : (0x00 :: 0x02 :: (ps ++ 0x00 :: M)).length = ps.length + M.length + 3 := by
    simp only [List.length_cons, List.length_append]
    omega
  simp only [SymCryptRsaPkcs1RemoveEncryptionPadding, f2]
  rw [if_neg (by rw [f3]; omega)]
  rw [if_pos (⟨rfl, rfl, by rw [f3]; omega⟩ :
    (0x00 :: 0x02 :: (ps ++ 0x00 :: M)).getD 0 0 = 0x00 ∧
    (0x00 :: 0x02 :: (ps ++ 0x00 :: M)).getD 1 0 = 0x02 ∧
    2 + ps.length < (0x00 :: 0x02 :: (ps ++ 0x00 :: M)).length)]
  show (if M.length < (0x00 :: 0x02 :: (ps ++ 0x00 :: M)).length - (2 + ps.length + 1)
      then (⟨.BufferTooSmall,
        some ((0x00 :: 0x02 :: (ps ++ 0x00 :: M)).length - (2 + ps.length + 1)), none⟩ : RemoveResult)
      else ⟨.NoError, some ((0x00 :: 0x02 :: (ps ++ 0x00 :: M)).length - (2 + ps.length + 1)),
        some (((0x00 :: 0x02 :: (ps ++ 0x00 :: M)).drop (2 + ps.length + 1)).take
          ((0x00 :: 0x02 :: (ps ++ 0x00 :: M)).length - (2 + ps.length + 1)))⟩)
    = ⟨.NoError, some M.length, some M⟩
  have f5 : (0x00 :: 0x02 :: (ps ++ 0x00 :: M)).length - (2 + ps.length + 1) = M.length := by
    rw [f3]
    omega
  rw [f5, f4, if_neg (by omega), List.take_length]

/-- C3. PKCS1 v1.5 encryption round trip: on a run where the random source
succeeds, so that the padding string has cbPKCS1Format - mLen - 3 bytes and
none of them is zero, remove applied to the block built by apply returns
NoError, reports length mLen and copies exactly the plaintext; a successful
apply fills exactly the k byte block. -/
theorem pkcs1_enc_roundtrip (M ps : List Nat) (k : Nat)
    (hk : M.length + 11 ≤ k)
    (hlen : ps.length = k - (M.length + 3))
    (hnz : ∀ b ∈ ps, b ≠ 0) :
    (SymCryptRsaPkcs1ApplyEncryptionPadding M 0 k ps).map
      (fun blk => SymCryptRsaPkcs1RemoveEncryptionPadding blk 0 (some M.length))
    = .ok ⟨.NoError, some M.length, some M⟩ ∧
    (∀ blk, SymCryptRsaPkcs1ApplyEncryptionPadding M 0 k ps = .ok blk → blk.length = k) := by
  constructor
  · unfold SymCryptRsaPkcs1ApplyEncryptionPadding
    rw [if_neg (by omega)]
    show Except.ok
      (SymCryptRsaPkcs1RemoveEncryptionPadding ([0x00, 0x02] ++ ps ++ [0x00] ++ M) 0
        (some M.length)) = _
    have hform : ([0x00, 0x02] ++ ps ++ [0x00] ++ M) = 0x00 :: 0x02 :: (ps ++ 0x00 :: M) := by
      simp
    rw [hform, pkcs1_remove_wellformed ps M hnz]
  · intro blk h
    unfold SymCryptRsaPkcs1ApplyEncryptionPadding at h
    rw [if_neg (by omega)] at h
    cases h
    simp only [List.length_append, List.length_cons, List.length_nil, List.length_singleton]
    omega

/-- Witness for C3 at the concrete scenario of the spec: k 16, five plaintext
bytes and an eight byte nonzero padding string. -/
theorem pkcs1_enc_roundtrip_witness :
    (SymCryptRsaPkcs1ApplyEncryptionPadding [1, 2, 3, 4, 5] 0 16
        [0xAA, 0xBB, 0xCC, 0xDD, 0xEE, 0xFF, 0x11, 0x22]).map
      (fun blk => SymCryptRsaPkcs1RemoveEncryptionPadding blk 0 (some 5))
    = .ok ⟨.NoError, some 5, some [1, 2, 3, 4, 5]⟩ ∧
    (∀ blk, SymCryptRsaPkcs1ApplyEncryptionPadding [1, 2, 3, 4, 5] 0 16
        [0xAA, 0xBB, 0xCC, 0xDD, 0xEE, 0xFF, 0x11, 0x22] = .ok blk → blk.length = 16) :=
  pkcs1_enc_roundtrip [1, 2, 3, 4, 5] [0xAA, 0xBB, 0xCC, 0xDD, 0xEE, 0xFF, 0x11, 0x22] 16
    (by decide) (by decide) (by decide)

/-- Modelled from the spec: the flag constants of the PKCS1 signature paths
live in a header that is not among the sources. The spec names NO_ASN1 as the
single recognized bit of the apply path and OPTIONAL_HASH_OID as the single
recognized bit of the verify path; they are modelled as distinct low bits of
the 32 bit flag word. -/
def SYMCRYPT_FLAG_RSA_PKCS1_NO_ASN1 : Nat := 1

/-- Modelled from the spec: companion flag constant of the verify path, see
SYMCRYPT_FLAG_RSA_PKCS1_NO_ASN1. -/
def SYMCRYPT_FLAG_RSA_PKCS1_OPTIONAL_HASH_OID : Nat := 2

/-- Mask of a full UINT32, used to model the complement operator of the source
applied to 32 bit flag words. -/
def UINT32_MASK : Nat := 0xFFFFFFFF

/-- Encoding T of the PKCS1 signature block, as the apply path writes it: the
DigestInfo with outer sequence, inner sequence, OID bytes, octet string tag,
digest length and digest when an OID of nonzero length is supplied, the octet
string alone when no OID is supplied, and the bare digest under NO_ASN1. The
guard cbEncoding at most 0x80 of the caller bounds every stored length byte
below 256, so the BYTE casts of the source are identities here. -/
def pkcs1SigEncoding (pbHash : List Nat) (pbHashOid : Option (List Nat))
    (fInsertASN1 : Bool) : List Nat :=
  if fInsertASN1 then
    match pbHashOid with
    | some oid =>
        if 0 < oid.length then
          [0x30, 4 + oid.length + pbHash.length, 0x30, oid.length] ++ oid ++
            [0x04, pbHash.length] ++ pbHash
        else [0x04, pbHash.length] ++ pbHash
    | none => [0x04, pbHash.length] ++ pbHash
  else pbHash

/-- Length cbEncoding computed by the apply path before writing T. -/
def pkcs1SigEncodingLen (pbHash : List Nat) (pbHashOid : Option (List Nat))
    (fInsertASN1 : Bool) : Nat :=
  if fInsertASN1 then
    match pbHashOid with
    | some oid => if 0 < oid.length then 6 + oid.length + pbHash.length
                  else 2 + pbHash.length
    | none => 2 + pbHash.length
  else pbHash.length

theorem pkcs1SigEncoding_length (pbHash : List Nat) (pbHashOid : Option (List Nat))
    (fInsertASN1 : Bool) :
    (pkcs1SigEncoding pbHash pbHashOid fInsertASN1).length =
      pkcs1SigEncodingLen pbHash pbHashOid fInsertASN1 := by
  cases fInsertASN1 with
  | false => rfl
  | true =>
      cases pbHashOid with
      | none =>
          simp [pkcs1SigEncoding, pkcs1SigEncodingLen]
          omega
      | some oid =>
          by_cases h : 0 < oid.length <;>
            simp [pkcs1SigEncoding, pkcs1SigEncodingLen, h, List.length_append] <;> omega

/-- SymCryptRsaPkcs1ApplySignaturePadding, lines 548 to 663 of rsa_padding.c.
The OID argument is none for a null pbHashOid pointer; a present argument
carries cbHashOid as its length, so the error branch of the source for a null
pointer with a nonzero declared length has no counterpart here. The rngOutput
argument stands for the bytes the ambient random callback would deliver on
this run; the body never consumes it, which claim C9 records. -/
def SymCryptRsaPkcs1ApplySignaturePadding (pbHash : List Nat) (pbHashOid : Option (List Nat))
    (flags : Nat) (cbPKCS1Format : Nat) (rngOutput : List Nat) :
    Except SYMCRYPT_ERROR (List Nat) :=
  if flags &&& (UINT32_MASK ^^^ SYMCRYPT_FLAG_RSA_PKCS1_NO_ASN1) ≠ 0 then
    .error .InvalidArgument
  else
    let fInsertASN1 : Bool := flags &&& SYMCRYPT_FLAG_RSA_PKCS1_NO_ASN1 == 0
    let cbEncoding := pkcs1SigEncodingLen pbHash pbHashOid fInsertASN1
    if 0x80 < cbEncoding then .error .InvalidArgument
    else if cbPKCS1Format < 3 + 8 + cbEncoding then .error .InvalidArgument
    else .ok ([0x00, 0x01] ++ List.replicate (cbPKCS1Format - 3 - cbEncoding) 0xFF ++
      [0x00] ++ pkcs1SigEncoding pbHash pbHashOid fInsertASN1)

theorem applySig_length (pbHash : List Nat) (pbHashOid : Option (List Nat))
    (flags cbPKCS1Format : Nat) (r blk : List Nat)
    (h : SymCryptRsaPkcs1ApplySignaturePadding pbHash pbHashOid flags cbPKCS1Format r
      = .ok blk) :
    blk.length = cbPKCS1Format := by
  simp only [SymCryptRsaPkcs1ApplySignaturePadding] at h
  split at h
  · exact absurd h (by simp)
  · split at h
    · exact absurd h (by simp)
    · split at h
      · exact absurd h (by simp)
      · rename_i hflag henc hsize
        cases h
        simp only [List.length_append, List.length_cons, List.length_nil,
          List.length_replicate, pkcs1SigEncoding_length]
        omega

theorem applySig_error (pbHash : List Nat) (pbHashOid : Option (List Nat))
    (flags cbPKCS1Format : Nat) (r : List Nat) (e : SYMCRYPT_ERROR)
    (h : SymCryptRsaPkcs1ApplySignaturePadding pbHash pbHashOid flags cbPKCS1Format r
      = .error e) :
    e = .InvalidArgument := by
  simp only [SymCryptRsaPkcs1ApplySignaturePadding] at h
  split at h
  · cases h; rfl
  · split at h
    · cases h; rfl
    · split at h
      · cases h; rfl
      · exact absurd h (by simp)

/-- SymCryptRsaPkcs1CheckSignaturePadding, lines 671 to 713 of rsa_padding.c.
The scratch buffer is wiped and then, on a successful apply, overwritten in
all of its cbPKCS1Format bytes (applySig_length), so the constant time
comparison of cbPKCS1Format bytes is equality of the two byte lists. -/
def SymCryptRsaPkcs1CheckSignaturePadding (pbHash : List Nat) (pbHashOid : Option (List Nat))
    (pbPKCS1Format : List Nat) (flags : Nat) (rngOutput : List Nat) : SYMCRYPT_ERROR :=
  match SymCryptRsaPkcs1ApplySignaturePadding pbHash pbHashOid flags
      pbPKCS1Format.length rngOutput with
  | .error e => e
  | .ok scratch =>
      if scratch = pbPKCS1Format then .NoError else .SignatureVerificationFailure

/-- Per OID loop of SymCryptRsaPkcs1VerifySignaturePadding: scError carries
the result of the last executed check across iterations and the loop stops at
the first success. -/
def pkcs1VerifyLoop (pbHash pbPKCS1Format r : List Nat) :
    SYMCRYPT_ERROR → List (List Nat) → SYMCRYPT_ERROR
  | scError, [] => scError
  | _, oid :: rest =>
      let e := SymCryptRsaPkcs1CheckSignaturePadding pbHash (some oid) pbPKCS1Format 0 r
      if e = .NoError then e else pkcs1VerifyLoop pbHash pbPKCS1Format r e rest

/-- SymCryptRsaPkcs1VerifySignaturePadding, lines 719 to 787 of rsa_padding.c.
pHashOIDs is none for a null OID array pointer; a present list carries
nOIDCount as its length. -/
def SymCryptRsaPkcs1VerifySignaturePadding (pbHash : List Nat)
    (pHashOIDs : Option (List (List Nat))) (pbPKCS1Format : List Nat) (flags : Nat)
    (r : List Nat) : SYMCRYPT_ERROR :=
  if flags &&& (UINT32_MASK ^^^ SYMCRYPT_FLAG_RSA_PKCS1_OPTIONAL_HASH_OID) ≠ 0 then
    .InvalidArgument
  else
    let scError := match pHashOIDs with
      | some oids => pkcs1VerifyLoop pbHash pbPKCS1Format r .NoError oids
      | none => .NoError
    if pHashOIDs = none ∨
        (scError ≠ .NoError ∧ flags &&& SYMCRYPT_FLAG_RSA_PKCS1_OPTIONAL_HASH_OID ≠ 0) then
      SymCryptRsaPkcs1CheckSignaturePadding pbHash none pbPKCS1Format
        SYMCRYPT_FLAG_RSA_PKCS1_NO_ASN1 r
    else scError

/-- C6. PKCS1 v1.5 signature apply with NO_ASN1 clear and a supplied OID of
nonzero length: an unrecognized flag bit gives InvalidArgument; with flags
zero, an encoding longer than 0x80 bytes or a block shorter than 3 + 8 + tLen
gives InvalidArgument, and otherwise the block is 0x00, 0x01, a padding
string of 0xFF bytes, 0x00 and the DigestInfo 0x30, tLen - 2, 0x30, oLen, the
OID bytes, 0x04, hLen and the digest, with tLen = 6 + oLen + hLen. -/
theorem pkcs1_sig_apply_digestinfo (hash oid : List Nat) (flags k : Nat) (r : List Nat)
    (hoid : 0 < oid.length) :
    (flags &&& (UINT32_MASK ^^^ SYMCRYPT_FLAG_RSA_PKCS1_NO_ASN1) ≠ 0 →
      SymCryptRsaPkcs1ApplySignaturePadding hash (some oid) flags k r
        = .error .InvalidArgument) ∧
    (0x80 < 6 + oid.length + hash.length ∨ k < 3 + 8 + (6 + oid.length + hash.length) →
      SymCryptRsaPkcs1ApplySignaturePadding hash (some oid) 0 k r
        = .error .InvalidArgument) ∧
    (6 + oid.length + hash.length ≤ 0x80 → 3 + 8 + (6 + oid.length + hash.length) ≤ k →
      SymCryptRsaPkcs1ApplySignaturePadding hash (some oid) 0 k r = .ok
        ([0x00, 0x01] ++ List.replicate (k - 3 - (6 + oid.length + hash.length)) 0xFF ++
          [0x00] ++ ([0x30, 4 + oid.length + hash.length, 0x30, oid.length] ++ oid ++
            [0x04, hash.length] ++ hash))) := by
  have hzf : (0 : Nat) &&& (UINT32_MASK ^^^ SYMCRYPT_FLAG_RSA_PKCS1_NO_ASN1) = 0 :=
    Nat.zero_and _
  have hasn : ((0 : Nat) &&& SYMCRYPT_FLAG_RSA_PKCS1_NO_ASN1 == 0) = true := by decide
  have hlenred : pkcs1SigEncodingLen hash (some oid) true = 6 + oid.length + hash.length := by
    simp [pkcs1SigEncodingLen, hoid]
  have hencred : pkcs1SigEncoding hash (some oid) true =
      [0x30, 4 + oid.length + hash.length, 0x30, oid.length] ++ oid ++
        [0x04, hash.length] ++ hash := by
    simp [pkcs1SigEncoding, hoid]
  refine ⟨fun h1 => ?_, fun h2 => ?_, fun h3 h4 => ?_⟩
  · simp only [SymCryptRsaPkcs1ApplySignaturePadding]
    rw [if_pos h1]
  · simp only [SymCryptRsaPkcs1ApplySignaturePadding, hzf, hasn, hlenred]
    rw [if_neg (by simp)]
    by_cases hg : 0x80 < 6 + oid.length + hash.length
    · rw [if_pos hg]
    · rw [if_neg hg, if_pos (by omega)]
  · simp only [SymCryptRsaPkcs1ApplySignaturePadding, hzf, hasn, hlenred, hencred]
    rw [if_neg (by simp), if_neg (by omega), if_neg (by omega)]

/-- Witness for C6 at a concrete digest, OID and exactly fitting block. -/
theorem pkcs1_sig_apply_digestinfo_witness :
    SymCryptRsaPkcs1ApplySignaturePadding [0xAA] (some [0x06, 0x05]) 0 20 [] = .ok
      ([0x00, 0x01] ++ List.replicate 8 0xFF ++ [0x00] ++
        ([0x30, 7, 0x30, 2] ++ [0x06, 0x05] ++ [0x04, 1] ++ [0xAA])) :=
  (pkcs1_sig_apply_digestinfo [0xAA] [0x06, 0x05] 0 20 [] (by decide)).2.2
    (by decide) (by decide)

/-- C9. PKCS1 v1.5 signature apply is deterministic: its body never reads the
ambient random source, so two runs with different random streams and equal
inputs return equal results, and a successful call determines the full
cbPKCS1Format byte block. -/
theorem pkcs1_sig_apply_deterministic (hash : List Nat) (oid : Option (List Nat))
    (flags k : Nat) (r1 r2 : List Nat) :
    SymCryptRsaPkcs1ApplySignaturePadding hash oid flags k r1 =
      SymCryptRsaPkcs1ApplySignaturePadding hash oid flags k r2 ∧
    (∀ blk, SymCryptRsaPkcs1ApplySignaturePadding hash oid flags k r1 = .ok blk →
      blk.length = k) :=
  ⟨rfl, fun blk h => applySig_length hash oid flags k r1 blk h⟩

/-- Witness for C9 at a concrete NO_ASN1 call with two random streams. -/
theorem pkcs1_sig_apply_deterministic_witness :
    SymCryptRsaPkcs1ApplySignaturePadding [0xAB] none SYMCRYPT_FLAG_RSA_PKCS1_NO_ASN1 12 [] =
      SymCryptRsaPkcs1ApplySignaturePadding [0xAB] none SYMCRYPT_FLAG_RSA_PKCS1_NO_ASN1 12
        [7, 9] ∧
    ([0x00, 0x01] ++ List.replicate 8 0xFF ++ [0x00] ++ [0xAB]).length = 12 :=
  ⟨(pkcs1_sig_apply_deterministic [0xAB] none SYMCRYPT_FLAG_RSA_PKCS1_NO_ASN1 12 [] [7, 9]).1,
   (pkcs1_sig_apply_deterministic [0xAB] none SYMCRYPT_FLAG_RSA_PKCS1_NO_ASN1 12 [] [7, 9]).2
     ([0x00, 0x01] ++ List.replicate 8 0xFF ++ [0x00] ++ [0xAB]) rfl⟩

/-- C10. The single OID check propagates the error of the internal re apply
unchanged, and returns SignatureVerificationFailure exactly when the re apply
succeeds and the rebuilt block differs from the observed one. -/
theorem pkcs1_check_characterization (hash : List Nat) (oid : Option (List Nat))
    (block : List Nat) (flags : Nat) (r : List Nat) :
    (∀ e, SymCryptRsaPkcs1ApplySignaturePadding hash oid flags block.length r = .error e →
      SymCryptRsaPkcs1CheckSignaturePadding hash oid block flags r = e) ∧
    (SymCryptRsaPkcs1CheckSignaturePadding hash oid block flags r =
        .SignatureVerificationFailure ↔
      ∃ s, SymCryptRsaPkcs1ApplySignaturePadding hash oid flags block.length r = .ok s ∧
        s ≠ block) := by
  constructor
  · intro e he
    simp [SymCryptRsaPkcs1CheckSignaturePadding, he]
  · cases happ : SymCryptRsaPkcs1ApplySignaturePadding hash oid flags block.length r with
    | error e =>
        have he := applySig_error hash oid flags block.length r e happ
        subst he
        simp [SymCryptRsaPkcs1CheckSignaturePadding, happ]
    | ok s =>
        by_cases hs : s = block
        · subst hs
          simp [SymCryptRsaPkcs1CheckSignaturePadding, happ]
        · simp [SymCryptRsaPkcs1CheckSignaturePadding, happ, hs]

/-- Witness for C10: unrecognized flag bit four makes the re apply fail with
InvalidArgument and the check returns that very error. -/
theorem pkcs1_check_characterization_witness :
    SymCryptRsaPkcs1CheckSignaturePadding [0] none (List.replicate 12 0) 4 []
      = .InvalidArgument :=
  (pkcs1_check_characterization [0] none (List.replicate 12 0) 4 []).1
    .InvalidArgument rfl

/-- C1 amended. With a null OID list pointer and flags zero, verify performs
exactly the NO_ASN1 fallback check and returns its result; a present but
empty OID array with flags zero skips both the per OID loop and the fallback
and returns NoError without examining the block. -/
theorem pkcs1_verify_empty_oid_behaviour (hash block r : List Nat) :
    SymCryptRsaPkcs1VerifySignaturePadding hash none block 0 r =
      SymCryptRsaPkcs1CheckSignaturePadding hash none block
        SYMCRYPT_FLAG_RSA_PKCS1_NO_ASN1 r ∧
    SymCryptRsaPkcs1VerifySignaturePadding hash (some []) block 0 r = .NoError := by
  constructor
  · simp [SymCryptRsaPkcs1VerifySignaturePadding]
  · simp [SymCryptRsaPkcs1VerifySignaturePadding, pkcs1VerifyLoop]

/-- C1 counterexample: a verify call with a present empty OID set and flags
zero returns NoError, while the NO_ASN1 fallback check of the very same
inputs returns SignatureVerificationFailure, so the result of this call is
not the result of a single NO_ASN1 retry. -/
theorem pkcs1_verify_empty_oid_counterexample :
    SymCryptRsaPkcs1VerifySignaturePadding [0] (some []) (List.replicate 12 0) 0 []
      = .NoError ∧
    SymCryptRsaPkcs1CheckSignaturePadding [0] none (List.replicate 12 0)
      SYMCRYPT_FLAG_RSA_PKCS1_NO_ASN1 [] = .SignatureVerificationFailure := by
  exact ⟨rfl, rfl⟩

theorem sizeSub_of_le (a b : Nat) (hba : b ≤ a) (ha : a < 2 ^ 64) : sizeSub a b = a - b := by
  unfold sizeSub
  have he : 2 ^ 64 + a - b = (a - b) + 2 ^ 64 := by omega
  rw [he, Nat.add_mod_right, Nat.mod_eq_of_lt (by omega)]

/-- Guard of the apply path on a present seed: a seed longer than hLen bytes
is rejected. -/
def oaepSeedTooLong (H : HashAlg) (pbSeed : Option (List Nat)) : Bool :=
  match pbSeed with
  | some s => decide (H.hLen < s.length)
  | none => false

/-- SymCryptRsaOaepApplyEncryptionPadding, lines 278 to 396 of rsa_padding.c.
pbSeed is none for a null seed pointer, in which case the random callback
fills the seed buffer and rndSeed stands for the hLen bytes it delivers on a
successful run; a present seed of at most hLen bytes is copied into the wiped
hLen byte seed buffer, leaving trailing zero bytes. -/
def SymCryptRsaOaepApplyEncryptionPadding (H : HashAlg) (pbPlaintext pbLabel : List Nat)
    (pbSeed : Option (List Nat)) (rndSeed : List Nat) (flags : Nat) (cbOAEPFormat : Nat) :
    Except SYMCRYPT_ERROR (List Nat) :=
  if flags ≠ 0 ∨ cbOAEPFormat < pbPlaintext.length + H.hLen * 2 + 2 ∨
      oaepSeedTooLong H pbSeed then
    .error .InvalidArgument
  else
    let cbPS := cbOAEPFormat - (pbPlaintext.length + H.hLen * 2 + 2)
    let cbDB := cbOAEPFormat - (H.hLen + 1)
    let DB := H.hash pbLabel ++ (List.replicate cbPS 0 ++ [0x01] ++ pbPlaintext)
    let seedInternal := match pbSeed with
      | none => rndSeed
      | some s => s ++ List.replicate (H.hLen - s.length) 0
    let maskedDB := xorBytes DB (SymCryptRsaPaddingMaskGeneration H seedInternal cbDB)
    let maskedSeed := xorBytes seedInternal
      (SymCryptRsaPaddingMaskGeneration H maskedDB H.hLen)
    .ok (0x00 :: (maskedSeed ++ maskedDB))

/-- Seed recovered by the OAEP remove path: the masked seed bytes xor the mask
generated from the masked DB. -/
def oaepRecoverSeed (H : HashAlg) (block : List Nat) : List Nat :=
  xorBytes ((block.drop 1).take H.hLen)
    (SymCryptRsaPaddingMaskGeneration H (block.drop (H.hLen + 1)) H.hLen)

/-- Data block recovered by the OAEP remove path: the masked DB bytes xor the
mask generated from the recovered seed. -/
def oaepRecoverDB (H : HashAlg) (block : List Nat) : List Nat :=
  xorBytes (block.drop (H.hLen + 1))
    (SymCryptRsaPaddingMaskGeneration H (oaepRecoverSeed H block)
      (block.length - (H.hLen + 1)))

/-- Label hash comparison loop of the remove path. The loop reads hLen bytes
from the DB scratch buffer; the label hash scratch buffer of the source sits
directly after the cbDB byte DB buffer, so when cbDB < hLen the reads beyond
the DB land in the label hash itself, which the append models. -/
def oaepLabelCheck (H : HashAlg) (DB lHash : List Nat) : Bool :=
  (List.range H.hLen).all (fun i => (DB ++ lHash).getD i 0 == lHash.getD i 0)

/-- PS scan of the OAEP remove path over the DB bytes after the label hash:
none on a byte that is neither 0x00 nor 0x01 before the first 0x01, otherwise
the number of scanned positions, counting one past the first 0x01 byte and
consuming everything when no 0x01 byte occurs. -/
def oaepScanPS : List Nat → Option Nat
  | [] => some 0
  | b :: rest =>
      if b = 0x01 then some 1
      else if b ≠ 0x00 then none
      else (oaepScanPS rest).map (fun c => c + 1)

theorem oaepScanPS_replicate (n : Nat) (M : List Nat) :
    oaepScanPS (List.replicate n 0 ++ 0x01 :: M) = some (n + 1) := by
  induction n with
  | zero => simp [oaepScanPS]
  | succ m ih =>
      rw [List.replicate_succ, List.cons_append, oaepScanPS]
      simp [ih]

/-- SymCryptRsaOaepRemoveEncryptionPadding, lines 401 to 540 of rsa_padding.c.
cbPlaintext is none for a null output pointer. The reported length is the
SIZE_T difference cbDB - cnt of the source, which underflows when the scan
leaves cnt above cbDB (possible when cbDB < hLen), hence the 64 bit wrap. -/
def SymCryptRsaOaepRemoveEncryptionPadding (H : HashAlg) (pbOAEPFormat pbLabel : List Nat)
    (flags : Nat) (cbPlaintext : Option Nat) : RemoveResult :=
  if flags ≠ 0 then ⟨.InvalidArgument, none, none⟩
  else if pbOAEPFormat.length < H.hLen + 1 ∨ pbOAEPFormat.getD 0 0 ≠ 0x00 then
    ⟨.InvalidArgument, none, none⟩
  else
    let cbDB := pbOAEPFormat.length - (H.hLen + 1)
    let DB := oaepRecoverDB H pbOAEPFormat
    if oaepLabelCheck H DB (H.hash pbLabel) then
      match oaepScanPS (DB.drop H.hLen) with
      | none => ⟨.InvalidArgument, none, none⟩
      | some c =>
          let len := sizeSub cbDB (H.hLen + c)
          match cbPlaintext with
          | none => ⟨.NoError, some len, none⟩
          | some cb =>
              if cb < len then ⟨.BufferTooSmall, some len, none⟩
              else ⟨.NoError, some len, some ((DB.drop (H.hLen + c)).take len)⟩
    else ⟨.InvalidArgument, none, none⟩

theorem oaepRecoverSeed_of_form (H : HashAlg) (seedInternal mdb : List Nat)
    (hseedlen : seedInternal.length = H.hLen) :
    oaepRecoverSeed H (0x00 :: (xorBytes seedInternal
        (SymCryptRsaPaddingMaskGeneration H mdb H.hLen) ++ mdb)) = seedInternal := by
  have hmslen : (xorBytes seedInternal
      (SymCryptRsaPaddingMaskGeneration H mdb H.hLen)).length = H.hLen := by
    rw [xorBytes_length, hseedlen, maskGen_length]
    exact Nat.min_self _
  unfold oaepRecoverSeed
  simp only [List.drop_succ_cons, List.drop_zero]
  rw [List.drop_left' hmslen, List.take_left' hmslen]
  exact xorBytes_cancel seedInternal _ (by rw [hseedlen, maskGen_length])

theorem oaepRecoverDB_of_form (H : HashAlg) (seedInternal DB : List Nat) (cbDB : Nat)
    (hseedlen : seedInternal.length = H.hLen) (hDBlen : DB.length = cbDB) :
    oaepRecoverDB H (0x00 :: (xorBytes seedInternal
        (SymCryptRsaPaddingMaskGeneration H
          (xorBytes DB (SymCryptRsaPaddingMaskGeneration H seedInternal cbDB)) H.hLen) ++
      xorBytes DB (SymCryptRsaPaddingMaskGeneration H seedInternal cbDB))) = DB := by
  have hmdblen : (xorBytes DB (SymCryptRsaPaddingMaskGeneration H seedInternal cbDB)).length
      = cbDB := by
    rw [xorBytes_length, hDBlen, maskGen_length]
    exact Nat.min_self _
  have hmslen : (xorBytes seedInternal (SymCryptRsaPaddingMaskGeneration H
      (xorBytes DB (SymCryptRsaPaddingMaskGeneration H seedInternal cbDB)) H.hLen)).length
      = H.hLen := by
    rw [xorBytes_length, hseedlen, maskGen_length]
    exact Nat.min_self _
  unfold oaepRecoverDB
  rw [oaepRecoverSeed_of_form H seedInternal _ hseedlen]
  have harg : (0x00 :: (xorBytes seedInternal
      (SymCryptRsaPaddingMaskGeneration H
        (xorBytes DB (SymCryptRsaPaddingMaskGeneration H seedInternal cbDB)) H.hLen) ++
      xorBytes DB (SymCryptRsaPaddingMaskGeneration H seedInternal cbDB))).length
      - (H.hLen + 1) = cbDB := by
    simp only [List.length_cons, List.length_append, hmslen, hmdblen]
    omega
  rw [harg]
  simp only [List.drop_succ_cons]
  rw [List.drop_left' hmslen]
  exact xorBytes_cancel DB _ (by rw [hDBlen, maskGen_length])

theorem oaep_remove_of_recover (H : HashAlg) (block L : List Nat) (cbPS : Nat) (M : List Nat)
    (h0 : block.getD 0 0 = 0x00)
    (hlen : H.hLen + 1 ≤ block.length)
    (hk64 : block.length < 2 ^ 64)
    (hDB : oaepRecoverDB H block =
      H.hash L ++ (List.replicate cbPS 0 ++ [0x01] ++ M))
    (hcb : block.length - (H.hLen + 1) = H.hLen + cbPS + 1 + M.length) :
    SymCryptRsaOaepRemoveEncryptionPadding H block L 0 (some M.length)
      = ⟨.NoError, some M.length, some M⟩ := by
  simp only [SymCryptRsaOaepRemoveEncryptionPadding]
  rw [if_neg (by simp), if_neg (by rw [not_or]; exact ⟨by omega, fun hne => hne h0⟩), hDB]
  have hlabel : oaepLabelCheck H (H.hash L ++ (List.replicate cbPS 0 ++ [0x01] ++ M))
      (H.hash L) = true := by
    unfold oaepLabelCheck
    rw [List.all_eq_true]
    intro i hi
    rw [List.mem_range] at hi
    rw [List.append_assoc, getD_append_l _ _ i (by rw [H.hash_length]; exact hi)]
    exact beq_self_eq_true _
  rw [if_pos hlabel]
  have hdscan : (H.hash L ++ (List.replicate cbPS 0 ++ [0x01] ++ M)).drop H.hLen
      = List.replicate cbPS 0 ++ 0x01 :: M := by
    rw [List.drop_left' (H.hash_length L)]
    simp
  simp only [hdscan, oaepScanPS_replicate]
  have hlenval : sizeSub (block.length - (H.hLen + 1)) (H.hLen + (cbPS + 1)) = M.length := by
    rw [hcb, sizeSub_of_le _ _ (by omega) (by omega)]
    omega
  rw [hlenval, if_neg (by omega)]
  have hdrop2 : (H.hash L ++ (List.replicate cbPS 0 ++ [0x01] ++ M)).drop
      (H.hLen + (cbPS + 1)) = M := by
    have hr : H.hash L ++ (List.replicate cbPS 0 ++ [0x01] ++ M)
        = (H.hash L ++ (List.replicate cbPS 0 ++ [0x01])) ++ M := by simp
    rw [hr, List.drop_left' (by
      simp only [List.length_append, List.length_replicate, List.length_cons,
        List.length_nil, H.hash_length] <;> omega)]
  rw [hdrop2, List.take_length]

/-- C4. OAEP round trip: for a plaintext M, any label, any hash and an hLen
byte seed, with block length at least mLen + 2 hLen + 2 (and below the SIZE_T
range), remove with the same label applied to the output of apply returns
NoError and recovers exactly M. -/
theorem oaep_roundtrip (H : HashAlg) (M L s : List Nat) (k : Nat)
    (hk : M.length + H.hLen * 2 + 2 ≤ k) (hs : s.length = H.hLen) (hk64 : k < 2 ^ 64) :
    (SymCryptRsaOaepApplyEncryptionPadding H M L (some s) [] 0 k).map
      (fun blk => SymCryptRsaOaepRemoveEncryptionPadding H blk L 0 (some M.length))
    = .ok ⟨.NoError, some M.length, some M⟩ := by
  have hpos := H.hLen_pos
  simp only [SymCryptRsaOaepApplyEncryptionPadding]
  rw [if_neg ?hguard]
  case hguard =>
    rintro (h | h | h)
    · exact h rfl
    · omega
    · simp [oaepSeedTooLong, hs] at h
  have hseed : s ++ List.replicate (H.hLen - s.length) 0 = s := by
    rw [hs, Nat.sub_self]
    simp
  rw [hseed]
  simp only [Except.map]
  have hDBlen : (H.hash L ++ (List.replicate (k - (M.length + H.hLen * 2 + 2)) 0 ++
      [0x01] ++ M)).length = k - (H.hLen + 1) := by
    simp only [List.length_append, List.length_replicate, List.length_cons,
      List.length_nil, H.hash_length]
    omega
  apply congrArg
  apply oaep_remove_of_recover H _ L (k - (M.length + H.hLen * 2 + 2)) M
  · rfl
  · have h1 := xorBytes_length s (SymCryptRsaPaddingMaskGeneration H
      (xorBytes (H.hash L ++ (List.replicate (k - (M.length + H.hLen * 2 + 2)) 0 ++
        [0x01] ++ M)) (SymCryptRsaPaddingMaskGeneration H s (k - (H.hLen + 1))))
      H.hLen)
    simp only [List.length_cons, List.length_append, h1, hs, maskGen_length]
    omega
  · have h1 := xorBytes_length s (SymCryptRsaPaddingMaskGeneration H
      (xorBytes (H.hash L ++ (List.replicate (k - (M.length + H.hLen * 2 + 2)) 0 ++
        [0x01] ++ M)) (SymCryptRsaPaddingMaskGeneration H s (k - (H.hLen + 1))))
      H.hLen)
    have h2 := xorBytes_length (H.hash L ++ (List.replicate (k - (M.length + H.hLen * 2 + 2))
      0 ++ [0x01] ++ M)) (SymCryptRsaPaddingMaskGeneration H s (k - (H.hLen + 1)))
    simp only [List.length_cons, List.length_append, h1, h2, hs, hDBlen, maskGen_length]
    omega
  · exact oaepRecoverDB_of_form H s _ (k - (H.hLen + 1)) hs hDBlen
  · have h1 := xorBytes_length s (SymCryptRsaPaddingMaskGeneration H
      (xorBytes (H.hash L ++ (List.replicate (k - (M.length + H.hLen * 2 + 2)) 0 ++
        [0x01] ++ M)) (SymCryptRsaPaddingMaskGeneration H s (k - (H.hLen + 1))))
      H.hLen)
    have h2 := xorBytes_length (H.hash L ++ (List.replicate (k - (M.length + H.hLen * 2 + 2))
      0 ++ [0x01] ++ M)) (SymCryptRsaPaddingMaskGeneration H s (k - (H.hLen + 1)))
    simp only [List.length_cons, List.length_append, h1, h2, hs, hDBlen, maskGen_length]
    omega

/-- Witness for C4 at the one byte constant hash, a one byte plaintext, the
empty label, a one byte seed and the smallest legal block. -/
theorem oaep_roundtrip_witness :
    (SymCryptRsaOaepApplyEncryptionPadding hashZ [0x48] [] (some [7]) [] 0 5).map
      (fun blk => SymCryptRsaOaepRemoveEncryptionPadding hashZ blk [] 0 (some 1))
    = .ok ⟨.NoError, some 1, some [0x48]⟩ :=
  oaep_roundtrip hashZ [0x48] [] [7] 5 (by decide) (by decide) (by decide)

/-- C2 evaluation at the failing input: the four byte zero block passes the
header and label hash checks, its recovered DB is two zero bytes, so at and
after offset hLen there is no 0x01 byte and every byte is 0x00, yet the call
returns NoError with a zero reported length and an empty plaintext instead of
InvalidArgument. -/
theorem oaep_missing_separator_eval :
    oaepRecoverDB hashZ [0x00, 0x00, 0x00, 0x00] = [0x00, 0x00] ∧
    (oaepRecoverDB hashZ [0x00, 0x00, 0x00, 0x00]).drop hashZ.hLen = [0x00] ∧
    SymCryptRsaOaepRemoveEncryptionPadding hashZ [0x00, 0x00, 0x00, 0x00] [] 0 (some 0)
      = ⟨.NoError, some 0, some []⟩ :=
  ⟨rfl, rfl, rfl⟩

/-- C8 evaluation at the failing input: a block of exactly hLen + 1 bytes has
an empty DB; the label comparison succeeds because the label hash scratch
buffer starts where the empty DB buffer ends, the scan leaves the cursor at
hLen, and the SIZE_T subtraction cbDB - cnt wraps, so the call reports the
plaintext length 2 ^ 64 - 1, far above the data block capacity of the block,
together with NoError for a null output buffer. -/
theorem oaep_pcb_underflow_eval :
    SymCryptRsaOaepRemoveEncryptionPadding hashZ [0x00, 0x00] [] 0 none
      = ⟨.NoError, some (2 ^ 64 - 1), none⟩ ∧
    [0x00, 0x00].length - (hashZ.hLen + 1) < 2 ^ 64 - 1 ∧
    [0x00, 0x00].length < 2 ^ 64 - 1 :=
  ⟨rfl, by decide, by decide⟩

/-- Masking of the leading byte of a buffer: the source writes b[0] &= m. -/
def maskFirstByte : List Nat → Nat → List Nat
  | [], _ => []
  | b :: rest, m => (b &&& m) :: rest

theorem maskFirstByte_length (l : List Nat) (m : Nat) :
    (maskFirstByte l m).length = l.length := by
  cases l <;> rfl

theorem maskFirstByte_getD0 (l : List Nat) (m : Nat) :
    (maskFirstByte l m).getD 0 0 = l.getD 0 0 &&& m := by
  cases l with
  | nil => simp [maskFirstByte, Nat.zero_and]
  | cons b rest => rfl

theorem mask_xor_mask (a b m : Nat) : (((a ^^^ b) &&& m) ^^^ b) &&& m = a &&& m := by
  apply Nat.eq_of_testBit_eq
  intro i
  simp only [Nat.testBit_and, Nat.testBit_xor]
  cases ha : a.testBit i <;> cases hb : b.testBit i <;> cases hm : m.testBit i <;> rfl

theorem mask_and_shift_zero (x d : Nat) (hd : d ≤ 8) :
    (x &&& (0xff >>> d)) &&& ((0xff <<< (8 - d)) % 256) = 0 := by
  rw [Nat.land_assoc]
  have h : (0xff >>> d) &&& ((0xff <<< (8 - d)) % 256) = 0 := by
    interval_cases d <;> decide
  rw [h, Nat.and_zero]

theorem one_and_mask (d : Nat) (hd : d ≤ 7) : 1 &&& (0xff >>> d) = 1 := by
  interval_cases d <;> decide

theorem maskFirstByte_unmask (DB mg : List Nat) (m : Nat)
    (hh : DB.getD 0 0 &&& m = DB.getD 0 0) (hlen : DB.length = mg.length) :
    maskFirstByte (xorBytes (maskFirstByte (xorBytes DB mg) m) mg) m = DB := by
  cases DB with
  | nil =>
      cases mg with
      | nil => rfl
      | cons b tlm => simp at hlen
  | cons a tl =>
      cases mg with
      | nil => simp at hlen
      | cons b tlm =>
          simp only [xorBytes, List.zipWith_cons_cons, maskFirstByte]
          rw [mask_xor_mask]
          have ha : a &&& m = a := hh
          rw [ha, zipWith_xor_cancel tl tlm (by simpa using hlen)]

/-- SymCryptRsaPssApplySignaturePadding, lines 811 to 951 of rsa_padding.c.
The salt argument holds the bytes used as the salt: the supplied salt when
pbSalt is not null, otherwise the cbSalt bytes the random callback delivered
on a successful run; both branches of the source place the same bytes into M
prime and into the DB. When nBitsOfModulus is 1 modulo 8 the source writes a
leading zero byte and works on the remaining cbPSSFormatIn - 1 bytes. -/
def SymCryptRsaPssApplySignaturePadding (H : HashAlg) (pbHash salt : List Nat)
    (nBitsOfModulus flags : Nat) (cbPSSFormatIn : Nat) : Except SYMCRYPT_ERROR (List Nat) :=
  if cbPSSFormatIn = 0 then .error .InvalidArgument
  else
    let lead := if nBitsOfModulus % 8 = 1 then 1 else 0
    let cbPSSFormat := cbPSSFormatIn - lead
    if flags ≠ 0 ∨ cbPSSFormat < H.hLen + salt.length + 2 then .error .InvalidArgument
    else
      let cbDB := cbPSSFormat - (H.hLen + 1)
      let hPrime := H.hash (List.replicate 8 0 ++ pbHash ++ salt)
      let DB := List.replicate (cbDB - salt.length - 1) 0 ++ [0x01] ++ salt
      let maskedDB := xorBytes DB (SymCryptRsaPaddingMaskGeneration H hPrime cbDB)
      let dwZeroBits := 8 * cbPSSFormat + 1 - nBitsOfModulus
      .ok (List.replicate lead 0 ++
        (maskFirstByte maskedDB (0xff >>> dwZeroBits) ++ hPrime ++ [0xbc]))

/-- Body of SymCryptRsaPssVerifySignaturePadding from line 1011 of
rsa_padding.c on, after the flag, null and leading zero byte handling: the
masked bit and trailer byte checks, the DB unmasking, the padding and 0x01
checks, the salt extraction and the final constant time hash comparison. The
BYTE cast of the shifted constant is the reduction modulo 256. -/
def pssVerifyStripped (H : HashAlg) (pbHash : List Nat) (cbSalt : Nat)
    (pbPSSFormat : List Nat) (nBitsOfModulus : Nat) : SYMCRYPT_ERROR :=
  let cbPSSFormat := pbPSSFormat.length
  let dwZeroBits := 8 * cbPSSFormat + 1 - nBitsOfModulus
  if pbPSSFormat.getD 0 0 &&& ((0xff <<< (8 - dwZeroBits)) % 256) ≠ 0 ∨
      pbPSSFormat.getD (cbPSSFormat - 1) 0 ≠ 0xbc ∨
      cbPSSFormat < H.hLen + cbSalt + 2 then .InvalidArgument
  else
    let cbDB := cbPSSFormat - (H.hLen + 1)
    let DB := maskFirstByte
      (xorBytes (pbPSSFormat.take cbDB)
        (SymCryptRsaPaddingMaskGeneration H ((pbPSSFormat.drop cbDB).take H.hLen) cbDB))
      (0xff >>> dwZeroBits)
    if (DB.take (cbDB - cbSalt - 1)).all (fun b => b == 0) = false then .InvalidArgument
    else if DB.getD (cbDB - cbSalt - 1) 0 ≠ 0x01 then .InvalidArgument
    else if (pbPSSFormat.drop cbDB).take H.hLen ≠
        H.hash (List.replicate 8 0 ++ pbHash ++ DB.drop (cbDB - cbSalt)) then
      .InvalidArgument
    else .NoError

/-- SymCryptRsaPssVerifySignaturePadding, lines 956 to 1097 of rsa_padding.c:
flag and empty buffer rejection, the corner case of a modulus bit count of 1
modulo 8 whose extra leading byte must be zero and is skipped, then the
stripped verification body. -/
def SymCryptRsaPssVerifySignaturePadding (H : HashAlg) (pbHash : List Nat) (cbSalt : Nat)
    (pbPSSFormatIn : List Nat) (nBitsOfModulus flags : Nat) : SYMCRYPT_ERROR :=
  if flags ≠ 0 ∨ pbPSSFormatIn.length = 0 then .InvalidArgument
  else if nBitsOfModulus % 8 = 1 ∧ pbPSSFormatIn.getD 0 0 ≠ 0 then .InvalidArgument
  else if nBitsOfModulus % 8 = 1 then
    pssVerifyStripped H pbHash cbSalt (pbPSSFormatIn.drop 1) nBitsOfModulus
  else pssVerifyStripped H pbHash cbSalt pbPSSFormatIn nBitsOfModulus

theorem pssVerifyStripped_roundtrip (H : HashAlg) (pbHash salt : List Nat)
    (nBits emLen : Nat)
    (hsize : H.hLen + salt.length + 2 ≤ emLen)
    (hd : 8 * emLen + 1 - nBits ≤ 7) :
    pssVerifyStripped H pbHash salt.length
      (maskFirstByte
        (xorBytes (List.replicate (emLen - (H.hLen + 1) - salt.length - 1) 0 ++
            [0x01] ++ salt)
          (SymCryptRsaPaddingMaskGeneration H
            (H.hash (List.replicate 8 0 ++ pbHash ++ salt)) (emLen - (H.hLen + 1))))
        (0xff >>> (8 * emLen + 1 - nBits)) ++
      H.hash (List.replicate 8 0 ++ pbHash ++ salt) ++ [0xbc]) nBits = .NoError := by
  have hpos := H.hLen_pos
  set cbDB := emLen - (H.hLen + 1) with hcbDB
  set pad2 := cbDB - salt.length - 1 with hpad2
  set d := 8 * emLen + 1 - nBits with hdd
  set hP := H.hash (List.replicate 8 0 ++ pbHash ++ salt) with hhP
  set DB := List.replicate pad2 0 ++ [0x01] ++ salt with hDBdef
  set mg := SymCryptRsaPaddingMaskGeneration H hP cbDB with hmg
  set mFB := maskFirstByte (xorBytes DB mg) (0xff >>> d) with hmFB
  have hDBlen : DB.length = cbDB := by
    rw [hDBdef]
    simp only [List.length_append, List.length_replicate, List.length_cons, List.length_nil]
    omega
  have hmglen : mg.length = cbDB := by
    rw [hmg]
    exact maskGen_length H hP cbDB
  have hxlen : (xorBytes DB mg).length = cbDB := by
    rw [xorBytes_length, hDBlen, hmglen, Nat.min_self]
  have hmFBlen : mFB.length = cbDB := by
    rw [hmFB, maskFirstByte_length, hxlen]
  have hhPlen : hP.length = H.hLen := by
    rw [hhP]
    exact H.hash_length _
  have hemlen : (mFB ++ hP ++ [0xbc]).length = emLen := by
    simp only [List.length_append, List.length_cons, List.length_nil, hmFBlen, hhPlen]
    omega
  have hpreslen : (mFB ++ hP).length = emLen - 1 := by
    simp only [List.length_append, hmFBlen, hhPlen]
    omega
  have hdb0 : DB.getD 0 0 = 0 ∨ DB.getD 0 0 = 1 := by
    rw [hDBdef]
    cases hp : pad2 with
    | zero => right; simp
    | succ p => left; simp [List.replicate_succ]
  have hh : DB.getD 0 0 &&& (0xff >>> d) = DB.getD 0 0 := by
    rcases hdb0 with h0 | h0 <;> rw [h0]
    · exact Nat.zero_and _
    · exact one_and_mask d (by omega)
  have htake : (mFB ++ hP ++ [0xbc]).take cbDB = mFB := by
    rw [List.append_assoc, List.take_left' hmFBlen]
  have hdropc : (mFB ++ hP ++ [0xbc]).drop cbDB = hP ++ [0xbc] := by
    rw [List.append_assoc, List.drop_left' hmFBlen]
  have hobs : ((mFB ++ hP ++ [0xbc]).drop cbDB).take H.hLen = hP := by
    rw [hdropc, List.take_left' hhPlen]
  simp only [pssVerifyStripped, hemlen]
  rw [← hdd, ← hcbDB]
  rw [if_neg ?hhead]
  case hhead =>
    rintro (h | h | h)
    · apply h
      have hfb : (mFB ++ hP ++ [0xbc]).getD 0 0 = (xorBytes DB mg).getD 0 0 &&& (0xff >>> d) := by
        rw [List.append_assoc, getD_append_l _ _ 0 (by rw [hmFBlen]; omega), hmFB,
          maskFirstByte_getD0]
      rw [hfb]
      exact mask_and_shift_zero _ d (by omega)
    · apply h
      rw [getD_append_r _ _ _ (by rw [hpreslen])]
      rw [hpreslen]
      have hz : emLen - 1 - (emLen - 1) = 0 := by omega
      rw [hz]
      rfl
    · omega
  rw [htake, hobs, ← hmg, hmFB,
    maskFirstByte_unmask DB mg _ hh (hDBlen.trans hmglen.symm), ← hpad2]
  have hz : (DB.take pad2).all (fun b => b == 0) = true := by
    rw [hDBdef, List.append_assoc,
      List.take_left' (List.length_replicate pad2 0), List.all_eq_true]
    intro x hx
    rw [List.eq_of_mem_replicate hx]
    rfl
  rw [if_neg (by rw [hz]; simp)]
  have h01 : DB.getD pad2 0 = 0x01 := by
    rw [hDBdef, getD_append_l _ _ pad2 (by
      simp only [List.length_append, List.length_replicate, List.length_cons, List.length_nil]
      omega)]
    rw [getD_append_r _ _ pad2 (by rw [List.length_replicate])]
    rw [List.length_replicate, Nat.sub_self]
    rfl
  rw [if_neg (by rw [h01]; simp)]
  have hsalt : DB.drop (cbDB - salt.length) = salt := by
    have harith : cbDB - salt.length = pad2 + 1 := by omega
    rw [harith, hDBdef, List.drop_left' (by
      simp only [List.length_append, List.length_replicate, List.length_cons,
        List.length_nil] <;> omega)]
  rw [hsalt, ← hhP, if_neg (fun hne => hne rfl)]

/-- C5. PSS round trip: with the block sized to the modulus byte count and
emLen at least hLen + sLen + 2, verify with the salt length of the applied
salt accepts the output of apply; when the modulus bit count is 1 modulo 8,
apply writes a zero leading byte and verify rejects any block whose leading
byte is nonzero with InvalidArgument. -/
theorem pss_roundtrip (H : HashAlg) (mHash salt : List Nat) (nBits k : Nat)
    (hk : k = (nBits + 7) / 8)
    (hsize : H.hLen + salt.length + 2 ≤ (if nBits % 8 = 1 then k - 1 else k)) :
    ((SymCryptRsaPssApplySignaturePadding H mHash salt nBits 0 k).map
      (fun blk => SymCryptRsaPssVerifySignaturePadding H mHash salt.length blk nBits 0)
      = .ok .NoError) ∧
    (nBits % 8 = 1 → ∀ blk, SymCryptRsaPssApplySignaturePadding H mHash salt nBits 0 k
      = .ok blk → blk.getD 0 0 = 0) ∧
    (nBits % 8 = 1 → ∀ blk : List Nat, blk.getD 0 0 ≠ 0 →
      SymCryptRsaPssVerifySignaturePadding H mHash salt.length blk nBits 0
        = .InvalidArgument) := by
  have hpos := H.hLen_pos
  refine ⟨?part1, ?part2, ?part3⟩
  case part3 =>
    intro hm blk hget
    simp only [SymCryptRsaPssVerifySignaturePadding]
    by_cases hb : blk.length = 0
    · rw [if_pos (Or.inr hb)]
    · rw [if_neg (by rintro (h | h); exact h rfl; exact hb h), if_pos ⟨hm, hget⟩]
  case part2 =>
    intro hm blk h
    simp only [SymCryptRsaPssApplySignaturePadding] at h
    split at h
    · exact absurd h (by simp)
    · split at h
      · exact absurd h (by simp)
      · cases h
        simp [hm]
  case part1 =>
    by_cases hm : nBits % 8 = 1
    · rw [if_pos hm] at hsize
      have hk4 : 4 ≤ k := by omega
      have hd0 : 8 * (k - 1) + 1 - nBits ≤ 7 := by omega
      simp only [SymCryptRsaPssApplySignaturePadding]
      rw [if_neg (by omega)]
      simp only [if_pos hm]
      rw [if_neg (by rintro (h | h); exact h rfl; omega)]
      simp only [Except.map, List.replicate_one, List.singleton_append]
      simp only [SymCryptRsaPssVerifySignaturePadding]
      rw [if_neg (by rintro (h | h); exact h rfl; simp at h)]
      rw [if_neg (fun hc => hc.2 rfl), if_pos hm]
      simp only [List.drop_succ_cons, List.drop_zero]
      exact congrArg Except.ok
        (pssVerifyStripped_roundtrip H mHash salt nBits (k - 1) hsize hd0)
    · rw [if_neg hm] at hsize
      have hk3 : 3 ≤ k := by omega
      have hd7 : 8 * k + 1 - nBits ≤ 7 := by omega
      simp only [SymCryptRsaPssApplySignaturePadding]
      rw [if_neg (by omega)]
      simp only [if_neg hm]
      rw [if_neg (by rintro (h | h); exact h rfl; omega)]
      simp only [Except.map, List.replicate_zero, List.nil_append, Nat.sub_zero]
      simp only [SymCryptRsaPssVerifySignaturePadding]
      rw [if_neg (by
        rintro (h | h)
        · exact h rfl
        · simp at h)]
      rw [if_neg (fun hc => hm hc.1), if_neg hm]
      exact congrArg Except.ok
        (pssVerifyStripped_roundtrip H mHash salt nBits k hsize hd7)

/-- Witness for C5: one byte digest and salt, 33 bit modulus (1 modulo 8),
five byte block; and verify rejecting a block with nonzero leading byte. -/
theorem pss_roundtrip_witness :
    ((SymCryptRsaPssApplySignaturePadding hashZ [0xAB] [0xCD] 33 0 5).map
      (fun blk => SymCryptRsaPssVerifySignaturePadding hashZ [0xAB] 1 blk 33 0)
      = .ok .NoError) ∧
    SymCryptRsaPssVerifySignaturePadding hashZ [0xAB] 1 [0x80, 0, 0, 0, 0] 33 0
      = .InvalidArgument :=
  ⟨(pss_roundtrip hashZ [0xAB] [0xCD] 33 5 (by decide) (by decide)).1,
   (pss_roundtrip hashZ [0xAB] [0xCD] 33 5 (by decide) (by decide)).2.2 (by decide)
     [0x80, 0, 0, 0, 0] (by decide)⟩
